import Mathlib

/-!
Shallow embedding of the OneSR repository's distributed data sampler
(`onesr/data/data_sampler.py`) and loss utilities (`onesr/losses/loss_util.py`),
together with theorems checking the natural-language specification's claims
against the code.

Machine integers are modelled as `ℕ`; tensor values are modelled as exact
rationals (`ℚ`) for the loss utilities and as reals (`ℝ`) for the artifact-map
computation, whose `** (1 / 5)` power is a real power.  Fallible Python code is
modelled in `Except PyErr`.
-/

/-- Python runtime failures that the embedded code can raise. -/
inductive PyErr where
  | valueError
  | nameError
  | indexError
  | assertionError
deriving DecidableEq

/-! ### `onesr/data/data_sampler.py` -/

/-- Modelled from the spec: `flow.randperm(n, generator=g)` is deep-learning
framework code, not part of this repository.  The spec requires only that it is
"a pseudo-random permutation of `[0, total_size)` seeded exactly by the current
epoch value", i.e. a deterministic function of `(seed, n)` whose result is a
permutation of `[0, n)`.  `lcgStep` is the step of a small linear congruential
generator driving that model. -/
def lcgStep (s : ℕ) : ℕ := (75 * s + 74) % 65537

/-- Modelled from the spec: fuelled Fisher–Yates-style selection shuffle; each
step moves a pseudo-randomly chosen element of `l` to the front and recurses on
the rest.  With fuel `≥ l.length` the whole list is shuffled. -/
def shuffleFuel : ℕ → ℕ → List ℕ → List ℕ
  | 0, _, l => l
  | fuel + 1, s, l =>
    match l with
    | [] => []
    | x :: xs =>
      let j := s % (x :: xs).length
      (x :: xs).getD j 0 ::
        shuffleFuel fuel (lcgStep s) ((x :: xs).take j ++ (x :: xs).drop (j + 1))

/-- Modelled from the spec: `flow.randperm(n, generator=g)` where `g` is a fresh
generator seeded by `g.manual_seed(seed)`: a deterministic pseudo-random
permutation of `[0, n)`. -/
def randperm (seed n : ℕ) : List ℕ := shuffleFuel n seed (List.range n)

theorem shuffleFuel_length (fuel : ℕ) : ∀ (s : ℕ) (l : List ℕ),
    (shuffleFuel fuel s l).length = l.length := by
  induction fuel with
  | zero => intro s l; rfl
  | succ fuel ih =>
    intro s l
    match l with
    | [] => rfl
    | x :: xs =>
      have hj : s % (x :: xs).length < (x :: xs).length :=
        Nat.mod_lt _ (by simp [List.length_cons])
      simp only [shuffleFuel, List.length_cons, ih]
      rw [List.length_append, List.length_take, List.length_drop]
      simp only [List.length_cons] at hj ⊢
      omega

theorem shuffleFuel_perm (fuel : ℕ) : ∀ (s : ℕ) (l : List ℕ),
    (shuffleFuel fuel s l).Perm l := by
  induction fuel with
  | zero => intro s l; exact List.Perm.refl l
  | succ fuel ih =>
    intro s l
    match l with
    | [] => exact List.Perm.refl []
    | x :: xs =>
      have hj : s % (x :: xs).length < (x :: xs).length :=
        Nat.mod_lt _ (by simp [List.length_cons])
      simp only [shuffleFuel]
      have hget : (x :: xs).getD (s % (x :: xs).length) 0
          = (x :: xs).get ⟨s % (x :: xs).length, hj⟩ := by
        rw [List.getD_eq_getElem _ _ hj]
        simp
      rw [hget]
      have hsplit : (x :: xs).take (s % (x :: xs).length)
            ++ (x :: xs).get ⟨s % (x :: xs).length, hj⟩
              :: (x :: xs).drop (s % (x :: xs).length + 1)
          = x :: xs := by
        conv_rhs => rw [← List.take_append_drop (s % (x :: xs).length) (x :: xs)]
        congr 1
        rw [List.drop_eq_getElem_cons hj]
        simp
      refine List.Perm.trans (List.Perm.cons _ (ih _ _)) ?_
      refine List.Perm.trans List.perm_middle.symm ?_
      rw [hsplit]

theorem randperm_length (seed n : ℕ) : (randperm seed n).length = n := by
  unfold randperm
  rw [shuffleFuel_length, List.length_range]

theorem randperm_perm (seed n : ℕ) : (randperm seed n).Perm (List.range n) :=
  shuffleFuel_perm n seed (List.range n)

/-- State of `EnlargedSampler` (`onesr/data/data_sampler.py`).  The dataset
object is represented by its length: both `__init__` and `__iter__` use the
stored dataset only through `len(self.dataset)`. -/
structure EnlargedSampler where
  dataset : ℕ
  num_replicas : ℕ
  rank : ℕ
  epoch : ℕ
  num_samples : ℕ
  total_size : ℕ
deriving DecidableEq

namespace EnlargedSampler

/-- `EnlargedSampler.__init__(dataset, num_replicas, rank, ratio=1)`:
`self.epoch = 0`,
`self.num_samples = math.ceil(len(self.dataset) * ratio / self.num_replicas)`,
`self.total_size = self.num_samples * self.num_replicas`.
(Python's `/` is exact real division here; `math.ceil` of it on naturals is the
rational ceiling.  `num_replicas = 0` would raise `ZeroDivisionError` in Python;
every claim assumes `num_replicas ≥ 1`.) -/
def init (dataset num_replicas rank ratio : ℕ) : EnlargedSampler :=
  let num_samples := (⌈(dataset * ratio : ℚ) / (num_replicas : ℚ)⌉).toNat
  { dataset := dataset
    num_replicas := num_replicas
    rank := rank
    epoch := 0
    num_samples := num_samples
    total_size := num_samples * num_replicas }

/-- `EnlargedSampler.set_epoch(self, epoch)`: `self.epoch = epoch`. -/
def set_epoch (s : EnlargedSampler) (epoch : ℕ) : EnlargedSampler :=
  { s with epoch := epoch }

/-- `EnlargedSampler.__len__(self)`: `return self.num_samples`. -/
def len (s : EnlargedSampler) : ℕ := s.num_samples

end EnlargedSampler

/-- Python list slicing `l[start : stop : step]` for `step > 0` (the sampler
slices with `step = num_replicas ≥ 1`): the elements at positions
`start, start + step, start + 2 * step, ...` below `min stop (len l)`. -/
def pySlice (l : List ℕ) (start stop step : ℕ) : List ℕ :=
  let stop2 := min stop l.length
  (List.range' start ((stop2 - start + (step - 1)) / step) step).map
    (fun i => l.getD i 0)

namespace EnlargedSampler

/-- `EnlargedSampler.__iter__(self)`: seed a fresh generator with the current
epoch, draw `flow.randperm(self.total_size)`, reduce every entry
`v % dataset_size` (with `dataset_size = len(self.dataset)`; `dataset_size = 0`
would raise `ZeroDivisionError`, all claims assume it is `≥ 1`), take the slice
`indices[self.rank : self.total_size : self.num_replicas]`, and `assert` that
the slice has length `self.num_samples`. -/
def iter (s : EnlargedSampler) : Except PyErr (List ℕ) :=
  let indices0 := randperm s.epoch s.total_size
  let indices1 := indices0.map (fun v => v % s.dataset)
  let indices2 := pySlice indices1 s.rank s.total_size s.num_replicas
  if indices2.length = s.num_samples then Except.ok indices2
  else Except.error PyErr.assertionError

end EnlargedSampler

theorem pySlice_length (l : List ℕ) (r R ns : ℕ) (hR : 1 ≤ R) (hr : r < R)
    (hl : l.length = ns * R) : (pySlice l r (ns * R) R).length = ns := by
  unfold pySlice
  rw [List.length_map, List.length_range']
  rw [hl, min_self]
  rcases Nat.eq_zero_or_pos ns with hns | hns
  · subst hns
    simp only [Nat.zero_mul, Nat.zero_sub, Nat.zero_add]
    exact Nat.div_eq_of_lt (by omega)
  · have hrle : r ≤ ns * R := le_trans (le_of_lt hr) (Nat.le_mul_of_pos_left R hns)
    have harith : ns * R - r + (R - 1) = (R - 1 - r) + ns * R := by omega
    rw [harith, Nat.add_mul_div_right _ _ (by omega : 0 < R),
      Nat.div_eq_of_lt (by omega), Nat.zero_add]

theorem ceil_natDiv (a b : ℕ) (hb : 1 ≤ b) :
    (⌈(a : ℚ) / (b : ℚ)⌉).toNat = (a + b - 1) / b := by
  have hb0 : (0 : ℚ) < (b : ℚ) := by exact_mod_cast hb
  set n : ℕ := (a + b - 1) / b with hn
  have h1 : n * b ≤ a + b - 1 := by rw [hn]; exact Nat.div_mul_le_self _ _
  have h2 : a + b - 1 < (n + 1) * b := by
    have hlt : (a + b - 1) / b < n + 1 := by rw [← hn]; omega
    exact (Nat.div_lt_iff_lt_mul (by omega)).mp hlt
  rw [Nat.succ_mul] at h2
  have ha1 : a ≤ n * b := by omega
  have hceil : ⌈(a : ℚ) / (b : ℚ)⌉ = (n : ℤ) := by
    rw [Int.ceil_eq_iff]
    constructor
    · rw [lt_div_iff₀ hb0]
      have hnb : n * b < a + b := by omega
      have hq : ((n * b : ℕ) : ℚ) < ((a + b : ℕ) : ℚ) := by exact_mod_cast hnb
      push_cast at hq ⊢
      linarith
    · rw [div_le_iff₀ hb0]
      exact_mod_cast ha1
  rw [hceil]
  exact Int.toNat_natCast n

theorem getD_map_mod_lt (l : List ℕ) (ds i : ℕ) (hds : 1 ≤ ds) :
    (l.map (fun v => v % ds)).getD i 0 < ds := by
  rcases lt_or_ge i (l.map (fun v => v % ds)).length with h | h
  · rw [List.getD_eq_getElem _ _ h]
    rw [List.length_map] at h
    simp only [List.getElem_map]
    exact Nat.mod_lt _ (by omega)
  · rw [List.getD_eq_default _ _ h]
    omega

theorem iter_init_eq (ds R r ratio e : ℕ) (hR : 1 ≤ R) (hr : r < R) :
    ((EnlargedSampler.init ds R r ratio).set_epoch e).iter
      = Except.ok (pySlice
          ((randperm e ((EnlargedSampler.init ds R r ratio).total_size)).map
            (fun v => v % ds))
          r ((EnlargedSampler.init ds R r ratio).total_size) R) := by
  set ns : ℕ := (⌈(ds * ratio : ℚ) / (R : ℚ)⌉).toNat with hns
  have h2 : ((EnlargedSampler.init ds R r ratio).set_epoch e)
      = ⟨ds, R, r, e, ns, ns * R⟩ := rfl
  have h1 : (EnlargedSampler.init ds R r ratio).total_size = ns * R := rfl
  rw [h2, h1]
  have hlen : ((randperm e (ns * R)).map (fun v => v % ds)).length = ns * R := by
    rw [List.length_map, randperm_length]
  have hcond : (pySlice ((randperm e (ns * R)).map (fun v => v % ds))
      r (ns * R) R).length = ns :=
    pySlice_length _ r R ns hR hr hlen
  show (if (pySlice ((randperm e (ns * R)).map (fun v => v % ds))
        r (ns * R) R).length = ns
      then Except.ok (pySlice ((randperm e (ns * R)).map (fun v => v % ds))
        r (ns * R) R)
      else Except.error PyErr.assertionError) = _
  rw [if_pos hcond]

/-- C1: for every `(dataset_size, num_replicas, rank, ratio)` and every epoch
value, two independently constructed `EnlargedSampler`s whose epoch is set to
the same value produce identical index sequences, and (iteration being a pure
function of the sampler state, with a generator freshly seeded from the epoch
on every call) re-iterating one sampler without changing its epoch reproduces
the identical order. -/
theorem c1_determinism (ds R r ratio e : ℕ) (s1 s2 : EnlargedSampler)
    (h1 : s1 = (EnlargedSampler.init ds R r ratio).set_epoch e)
    (h2 : s2 = (EnlargedSampler.init ds R r ratio).set_epoch e) :
    s1.iter = s2.iter := by
  rw [h1, h2]

/-- C1 witness: two independently constructed samplers with
`(dataset_size, num_replicas, rank, ratio) = (10, 3, 1, 2)` and epoch `5`
iterate identically. -/
theorem c1_determinism_witness :
    ((EnlargedSampler.init 10 3 1 2).set_epoch 5).iter
      = ((EnlargedSampler.init 10 3 1 2).set_epoch 5).iter :=
  c1_determinism 10 3 1 2 5 _ _ rfl rfl

/-- C10: `set_epoch` changes only the `epoch` field: `dataset`,
`num_replicas`, `rank`, `num_samples` and `total_size` are unchanged, and in
particular `len` is the same before and after. -/
theorem c10_set_epoch_frame (s : EnlargedSampler) (e : ℕ) :
    (s.set_epoch e).dataset = s.dataset ∧
    (s.set_epoch e).num_replicas = s.num_replicas ∧
    (s.set_epoch e).rank = s.rank ∧
    (s.set_epoch e).num_samples = s.num_samples ∧
    (s.set_epoch e).total_size = s.total_size ∧
    (s.set_epoch e).len = s.len ∧
    (s.set_epoch e).epoch = e :=
  ⟨rfl, rfl, rfl, rfl, rfl, rfl, rfl⟩

/-- C2: a sampler constructed with `(dataset_size, num_replicas, rank, ratio)`
has `num_samples = ceil(dataset_size * ratio / num_replicas)` (equivalently the
natural-number ceiling division) and `total_size = num_samples * num_replicas`;
`len` equals `num_samples`; and one full iteration yields exactly `num_samples`
integers, each in `[0, dataset_size)`. -/
theorem c2_sizes (ds R r ratio : ℕ) (hds : 1 ≤ ds) (hR : 1 ≤ R) (hr : r < R) :
    (EnlargedSampler.init ds R r ratio).num_samples
        = (⌈(ds * ratio : ℚ) / (R : ℚ)⌉).toNat ∧
    (EnlargedSampler.init ds R r ratio).num_samples = (ds * ratio + R - 1) / R ∧
    (EnlargedSampler.init ds R r ratio).total_size
        = (EnlargedSampler.init ds R r ratio).num_samples * R ∧
    (EnlargedSampler.init ds R r ratio).len
        = (EnlargedSampler.init ds R r ratio).num_samples ∧
    ∃ l, (EnlargedSampler.init ds R r ratio).iter = Except.ok l
        ∧ l.length = (EnlargedSampler.init ds R r ratio).num_samples
        ∧ ∀ v ∈ l, v < ds := by
  refine ⟨rfl, ?_, rfl, rfl, ?_⟩
  · show (⌈(ds * ratio : ℚ) / (R : ℚ)⌉).toNat = (ds * ratio + R - 1) / R
    have := ceil_natDiv (ds * ratio) R hR
    rw [← this]
    norm_num
  · have hiter := iter_init_eq ds R r ratio 0 hR hr
    have hzero : (EnlargedSampler.init ds R r ratio).set_epoch 0
        = EnlargedSampler.init ds R r ratio := rfl
    rw [hzero] at hiter
    refine ⟨_, hiter, ?_, ?_⟩
    · exact pySlice_length _ r R _ hR hr
        (by rw [List.length_map, randperm_length]; rfl)
    · intro v hv
      unfold pySlice at hv
      obtain ⟨i, _, rfl⟩ := List.mem_map.mp hv
      exact getD_map_mod_lt _ ds i hds

/-- C2 witness: `dataset_size = 10`, `num_replicas = 3`, `rank = 0`,
`ratio = 1` gives `num_samples = 4` and `total_size = 12`, and iteration
yields 4 indices below 10. -/
theorem c2_sizes_witness :
    (EnlargedSampler.init 10 3 0 1).num_samples = 4 ∧
    (EnlargedSampler.init 10 3 0 1).total_size = 12 ∧
    ((EnlargedSampler.init 10 3 0 1).num_samples
        = (⌈(10 * 1 : ℚ) / (3 : ℚ)⌉).toNat ∧
      (EnlargedSampler.init 10 3 0 1).num_samples = (10 * 1 + 3 - 1) / 3 ∧
      (EnlargedSampler.init 10 3 0 1).total_size
          = (EnlargedSampler.init 10 3 0 1).num_samples * 3 ∧
      (EnlargedSampler.init 10 3 0 1).len
          = (EnlargedSampler.init 10 3 0 1).num_samples ∧
      ∃ l, (EnlargedSampler.init 10 3 0 1).iter = Except.ok l
          ∧ l.length = (EnlargedSampler.init 10 3 0 1).num_samples
          ∧ ∀ v ∈ l, v < 10) :=
  ⟨by
    show (⌈(((10 : ℕ) : ℚ) * ((1 : ℕ) : ℚ)) / ((3 : ℕ) : ℚ)⌉).toNat = 4
    rw [show ⌈(((10 : ℕ) : ℚ) * ((1 : ℕ) : ℚ)) / ((3 : ℕ) : ℚ)⌉ = 4 from by
      rw [Int.ceil_eq_iff]
      push_cast
      norm_num]
    decide,
  by
    show (⌈(((10 : ℕ) : ℚ) * ((1 : ℕ) : ℚ)) / ((3 : ℕ) : ℚ)⌉).toNat * 3 = 12
    rw [show ⌈(((10 : ℕ) : ℚ) * ((1 : ℕ) : ℚ)) / ((3 : ℕ) : ℚ)⌉ = 4 from by
      rw [Int.ceil_eq_iff]
      push_cast
      norm_num]
    decide,
    c2_sizes 10 3 0 1 (by decide) (by decide) (by decide)⟩

/-- C9: under the preconditions `dataset_size ≥ 1`, `num_replicas ≥ 1` and
`rank < num_replicas`, the internal assertion in `__iter__` (subsampled length
equals `num_samples`) always holds: iteration never reaches the
assertion-failure branch. -/
theorem c9_assert_unreachable (ds R r ratio e : ℕ)
    (_hds : 1 ≤ ds) (hR : 1 ≤ R) (hr : r < R) :
    ∃ l, ((EnlargedSampler.init ds R r ratio).set_epoch e).iter = Except.ok l
      ∧ l.length = (EnlargedSampler.init ds R r ratio).num_samples := by
  refine ⟨_, iter_init_eq ds R r ratio e hR hr, ?_⟩
  exact pySlice_length _ r R _ hR hr
    (by rw [List.length_map, randperm_length]; rfl)

/-- C9 witness: at `(dataset_size, num_replicas, rank, ratio, epoch)
= (10, 3, 2, 1, 7)` the iteration succeeds with `num_samples` indices. -/
theorem c9_assert_unreachable_witness :
    ∃ l, ((EnlargedSampler.init 10 3 2 1).set_epoch 7).iter = Except.ok l
      ∧ l.length = (EnlargedSampler.init 10 3 2 1).num_samples :=
  c9_assert_unreachable 10 3 2 1 7 (by decide) (by decide) (by decide)

/-- C3: for a fixed epoch, all ranks derive the same epoch-seeded permutation
of `[0, total_size)` reduced modulo `dataset_size`; rank `r`'s sequence is
exactly the slice `indices[r : total_size : num_replicas]`; and the per-rank
position sets `{r, r + num_replicas, r + 2 * num_replicas, ...}` cover each of
the `total_size` permutation positions exactly once. -/
theorem c3_partition (ds R ratio e : ℕ) (_hds : 1 ≤ ds) (hR : 1 ≤ R) :
    ((randperm e ((EnlargedSampler.init ds R 0 ratio).total_size)).Perm
        (List.range ((EnlargedSampler.init ds R 0 ratio).total_size)))
    ∧ (∀ r, r < R →
        ((EnlargedSampler.init ds R r ratio).set_epoch e).iter
          = Except.ok (pySlice
              ((randperm e ((EnlargedSampler.init ds R 0 ratio).total_size)).map
                (fun v => v % ds))
              r ((EnlargedSampler.init ds R 0 ratio).total_size) R))
    ∧ (∀ p, p < (EnlargedSampler.init ds R 0 ratio).total_size →
        ∃! r, r < R ∧
          p ∈ List.range' r ((EnlargedSampler.init ds R 0 ratio).num_samples) R) := by
  refine ⟨randperm_perm _ _, ?_, ?_⟩
  · intro r hr
    exact iter_init_eq ds R r ratio e hR hr
  · intro p hp
    have hts : (EnlargedSampler.init ds R 0 ratio).total_size
        = (EnlargedSampler.init ds R 0 ratio).num_samples * R := rfl
    set ns := (EnlargedSampler.init ds R 0 ratio).num_samples with hns
    rw [hts] at hp
    have hR0 : 0 < R := by omega
    refine ⟨p % R, ⟨Nat.mod_lt _ hR0, ?_⟩, ?_⟩
    · rw [List.mem_range']
      refine ⟨p / R, ?_, ?_⟩
      · exact (Nat.div_lt_iff_lt_mul hR0).mpr hp
      · rw [Nat.mod_add_div p R]
    · rintro r' ⟨hr', hmem⟩
      rw [List.mem_range'] at hmem
      obtain ⟨k, _, rfl⟩ := hmem
      rw [Nat.add_mul_mod_self_left, Nat.mod_eq_of_lt hr']

/-- C3 witness: at `(dataset_size, num_replicas, ratio, epoch) = (3, 2, 1, 0)`
the shared permutation, the per-rank slices and the exactly-once position
partition all hold. -/
theorem c3_partition_witness :
    ((randperm 0 ((EnlargedSampler.init 3 2 0 1).total_size)).Perm
        (List.range ((EnlargedSampler.init 3 2 0 1).total_size)))
    ∧ (∀ r, r < 2 →
        ((EnlargedSampler.init 3 2 r 1).set_epoch 0).iter
          = Except.ok (pySlice
              ((randperm 0 ((EnlargedSampler.init 3 2 0 1).total_size)).map
                (fun v => v % 3))
              r ((EnlargedSampler.init 3 2 0 1).total_size) 2))
    ∧ (∀ p, p < (EnlargedSampler.init 3 2 0 1).total_size →
        ∃! r, r < 2 ∧
          p ∈ List.range' r ((EnlargedSampler.init 3 2 0 1).num_samples) 2) :=
  c3_partition 3 2 1 0 (by decide) (by decide)

/-! ### `onesr/losses/loss_util.py` -/

/-- A tensor for the loss utilities: a shape and row-major data, with exact
rational values standing for the framework's floating-point values. -/
structure QTensor where
  shape : List ℕ
  data : List ℚ
deriving DecidableEq

/-- Broadcast of one dimension pair (equal-rank tensors): a size-1 axis
stretches to the other operand's size. -/
def bdim (a b : ℕ) : ℕ := if a = 1 then b else if b = 1 then a else max a b

namespace QTensor

/-- `Tensor.dim()`: the rank. -/
def dim (t : QTensor) : ℕ := t.shape.length

/-- `Tensor.size(i)` for a nonnegative `i`: the `i`-th entry of the shape;
raises `IndexError` (dimension out of range) when `i ≥ dim`. -/
def size (t : QTensor) (i : ℕ) : Except PyErr ℕ :=
  match t.shape.get? i with
  | some n => Except.ok n
  | none => Except.error PyErr.indexError

/-- `Tensor.numel()`: product of the shape. -/
def numel (t : QTensor) : ℕ := t.shape.prod

/-- `Tensor.sum()` as a rational (the framework returns it as a 0-dim tensor;
`scalar` packages it back up). -/
def sum (t : QTensor) : ℚ := t.data.sum

/-- `Tensor.mean()`: sum over number of elements. -/
def mean (t : QTensor) : ℚ := t.sum / t.numel

/-- A 0-dimensional tensor holding one value (result of `sum`/`mean`/scalar
division). -/
def scalar (c : ℚ) : QTensor := ⟨[], [c]⟩

/-- Row-major flat position of a multi-index. -/
def flatIdx (shape idx : List ℕ) : ℕ :=
  (shape.zip idx).foldl (fun acc p => acc * p.1 + p.2) 0

/-- Value at a multi-index (0 outside the data, which well-formed uses never
touch). -/
def valAt (t : QTensor) (idx : List ℕ) : ℚ := t.data.getD (flatIdx t.shape idx) 0

/-- Adjust a result-shape multi-index to a broadcast operand: a size-1 axis is
always read at position 0. -/
def bcIdx (shape idx : List ℕ) : List ℕ :=
  List.zipWith (fun d i => if d = 1 then 0 else i) shape idx

/-- Result shape of broadcasting two equal-rank shapes. -/
def bshape (s t : List ℕ) : List ℕ := List.zipWith bdim s t

/-- Row-major enumeration of all multi-indices of a shape. -/
def enumIdx : List ℕ → List (List ℕ)
  | [] => [[]]
  | n :: rest => (List.range n).flatMap (fun i => (enumIdx rest).map (fun idx => i :: idx))

/-- Elementwise product `a * b` with broadcasting between equal-rank tensors
(the only use in `loss_util.py` is `loss * weight` after the rank/size
asserts). -/
def mul (a b : QTensor) : QTensor :=
  let s := bshape a.shape b.shape
  ⟨s, (enumIdx s).map (fun idx => a.valAt (bcIdx a.shape idx) * b.valAt (bcIdx b.shape idx))⟩

end QTensor

/-- A Python `assert cond`: `AssertionError` when `cond` is false. -/
def pyAssert (b : Prop) [Decidable b] : Except PyErr Unit :=
  if b then Except.ok () else Except.error PyErr.assertionError

/-- `get_enum(reduction)` from `loss_util.py`.  The `elementwise_mean` branch
executes `warnings.warn(...)`, but `loss_util.py` never imports `warnings`, so
that branch raises `NameError` at run time instead of warning. -/
def get_enum (reduction : String) : Except PyErr ℕ :=
  if reduction = "none" then Except.ok 0
  else if reduction = "mean" then Except.ok 1
  else if reduction = "elementwise_mean" then Except.error PyErr.nameError
  else if reduction = "sum" then Except.ok 2
  else Except.error PyErr.valueError

/-- `reduce_loss(loss, reduction)`: dispatch on `get_enum`. -/
def reduce_loss (loss : QTensor) (reduction : String) : Except PyErr QTensor := do
  let reduction_enum ← get_enum reduction
  if reduction_enum = 0 then pure loss
  else if reduction_enum = 1 then pure (QTensor.scalar loss.mean)
  else pure (QTensor.scalar loss.sum)

/-- `weight_reduce_loss(loss, weight=None, reduction='mean')`.  With a weight:
assert equal ranks, assert (with Python's short-circuit `or`) that
`weight.size(1)` is `1` or equals `loss.size(1)`, multiply elementwise; then
for `sum` (or no weight) defer to `reduce_loss`, for `mean` divide the weighted
sum by `weight.sum()` (`weight.size(1) > 1`) or `weight.sum() * loss.size(1)`
(with `loss` rebound to the product); any other reduction string returns the
weighted loss unchanged. -/
def weight_reduce_loss (loss : QTensor) (weight : Option QTensor)
    (reduction : String) : Except PyErr QTensor :=
  match weight with
  | none => reduce_loss loss reduction
  | some w => do
    let _ ← pyAssert (w.dim = loss.dim)
    let ws1 ← w.size 1
    if ws1 = 1 then pure () else do
      let ls1 ← loss.size 1
      let _ ← pyAssert (ws1 = ls1)
      pure ()
    let loss1 := loss.mul w
    if reduction = "sum" then
      reduce_loss loss1 reduction
    else if reduction = "mean" then do
      let ws1b ← w.size 1
      if 1 < ws1b then
        pure (QTensor.scalar (loss1.sum / w.sum))
      else do
        let ls1b ← loss1.size 1
        pure (QTensor.scalar (loss1.sum / (w.sum * ls1b)))
    else
      pure loss1

/-- `weighted_loss(loss_func)`: wrap a pure elementwise loss function with
`weight` and `reduction` handling through `weight_reduce_loss`. -/
def weighted_loss (loss_func : QTensor → QTensor → QTensor)
    (pred target : QTensor) (weight : Option QTensor) (reduction : String) :
    Except PyErr QTensor :=
  weight_reduce_loss (loss_func pred target) weight reduction

theorem except_bind_ok {ε α β : Type} (a : α) (f : α → Except ε β) :
    (Except.ok a : Except ε α) >>= f = f a := rfl

theorem except_bind_error {ε α β : Type} (e : ε) (f : α → Except ε β) :
    (Except.error e : Except ε α) >>= f = Except.error e := rfl

theorem except_map_ok {ε α β : Type} (a : α) (f : α → β) :
    f <$> (Except.ok a : Except ε α) = Except.ok (f a) := rfl

theorem except_map_error {ε α β : Type} (e : ε) (f : α → β) :
    f <$> (Except.error e : Except ε α) = Except.error e := rfl

theorem except_pure {ε α : Type} (a : α) :
    (pure a : Except ε α) = Except.ok a := rfl

theorem QTensor.get?_of_size {t : QTensor} {i n : ℕ}
    (h : t.size i = Except.ok n) : t.shape.get? i = some n := by
  unfold QTensor.size at h
  cases hg : t.shape.get? i with
  | some m => rw [hg] at h; simp at h; rw [h]
  | none => rw [hg] at h; simp at h

theorem QTensor.size_of_get? {t : QTensor} {i n : ℕ}
    (h : t.shape.get? i = some n) : t.size i = Except.ok n := by
  unfold QTensor.size; rw [h]

theorem bdim_one_right (a : ℕ) : bdim a 1 = a := by
  unfold bdim
  by_cases h : a = 1 <;> simp [h]

theorem bdim_self (a : ℕ) : bdim a a = a := by
  unfold bdim
  by_cases h : a = 1 <;> simp [h]

theorem QTensor.size_mul {a b : QTensor} {i x y : ℕ}
    (ha : a.size i = Except.ok x) (hb : b.size i = Except.ok y) :
    (a.mul b).size i = Except.ok (bdim x y) := by
  apply QTensor.size_of_get?
  show (QTensor.bshape a.shape b.shape).get? i = some (bdim x y)
  have ha' := QTensor.get?_of_size ha
  have hb' := QTensor.get?_of_size hb
  rw [List.get?_eq_getElem?] at ha' hb' ⊢
  unfold QTensor.bshape
  rw [List.getElem?_zipWith, ha', hb']

/-- C4: `weight_reduce_loss` with a weight of the same rank (weight's
dimension-1 size `1` or equal to loss's) and `reduction='mean'` returns the
sum of the elementwise product `loss * weight` divided by the normalizer: the
sum of all weight elements when weight's dimension-1 size exceeds `1`, and
that sum times loss's dimension-1 size otherwise. -/
theorem c4_weighted_mean (loss w : QTensor) (ws1 ls1 : ℕ)
    (hdim : w.dim = loss.dim)
    (hws : w.size 1 = Except.ok ws1)
    (hls : loss.size 1 = Except.ok ls1)
    (hc : ws1 = 1 ∨ ws1 = ls1) :
    weight_reduce_loss loss (some w) "mean" =
      Except.ok (QTensor.scalar ((loss.mul w).sum /
        (if 1 < ws1 then w.sum else w.sum * (ls1 : ℚ)))) := by
  have hmul : (loss.mul w).size 1 = Except.ok (bdim ls1 ws1) :=
    QTensor.size_mul hls hws
  rcases hc with h1 | h1
  · subst h1
    rw [bdim_one_right] at hmul
    simp [weight_reduce_loss, pyAssert, hdim, hws, hmul,
      except_bind_ok, except_pure]
  · by_cases h2 : ws1 = 1
    · rw [h2] at h1
      subst h1
      rw [h2] at hws hmul ⊢
      rw [bdim_one_right] at hmul
      simp [weight_reduce_loss, pyAssert, hdim, hws, hmul,
        except_bind_ok, except_pure]
    · by_cases h3 : 1 < ws1
      · subst h1
        simp [weight_reduce_loss, pyAssert, hdim, hws, hls, h2, h3,
          except_bind_ok, except_pure]
      · have h0 : ws1 = 0 := by omega
        subst h1
        subst h0
        rw [bdim_self] at hmul
        simp [weight_reduce_loss, pyAssert, hdim, hws, hls, hmul,
          except_bind_ok, except_pure]

/-- C4 witness: `loss` of shape `(1, 2)` with data `[1, 2]` and `weight` of
shape `(1, 2)` with data `[2, 3]` (dimension-1 size `2 > 1`). -/
theorem c4_weighted_mean_witness :
    weight_reduce_loss ⟨[1, 2], [1, 2]⟩ (some ⟨[1, 2], [2, 3]⟩) "mean" =
      Except.ok (QTensor.scalar (((⟨[1, 2], [1, 2]⟩ : QTensor).mul
          ⟨[1, 2], [2, 3]⟩).sum /
        (if 1 < 2 then (⟨[1, 2], [2, 3]⟩ : QTensor).sum
          else (⟨[1, 2], [2, 3]⟩ : QTensor).sum * ((2 : ℕ) : ℚ)))) :=
  c4_weighted_mean ⟨[1, 2], [1, 2]⟩ ⟨[1, 2], [2, 3]⟩ 2 2 rfl rfl rfl
    (Or.inr rfl)

/-- C5 counterexample: with a weight supplied and the invalid reduction string
`"foo"`, `weight_reduce_loss` does not raise `ValueError`: it silently returns
the elementwise weighted loss (`[2] * [3] = [6]`), because the
`weight is not None` path only dispatches on `"sum"` and `"mean"`. -/
theorem c5_counterexample :
    weight_reduce_loss ⟨[1, 1], [2]⟩ (some ⟨[1, 1], [3]⟩) "foo"
      = Except.ok ⟨[1, 1], [6]⟩ := by
  simp [weight_reduce_loss, pyAssert, QTensor.dim, QTensor.size, QTensor.mul,
    QTensor.bshape, QTensor.enumIdx, QTensor.bcIdx, QTensor.valAt,
    QTensor.flatIdx, bdim, except_bind_ok, except_bind_error, except_map_ok,
    except_map_error, except_pure, List.range_succ]
  norm_num

/-- C5 (amended): a reduction string outside
`{none, mean, elementwise_mean, sum}` raises `ValueError` from `reduce_loss`,
from `weight_reduce_loss` *without* a weight, and from any `weighted_loss`
function called without a weight; but `weight_reduce_loss` *with* a weight
(once the shape asserts pass) returns the elementwise weighted loss without
raising. -/
theorem c5_invalid_reduction (reduction : String)
    (hbad : reduction ∉ (["none", "mean", "elementwise_mean", "sum"] : List String)) :
    (∀ loss : QTensor, reduce_loss loss reduction = Except.error PyErr.valueError)
    ∧ (∀ loss : QTensor,
        weight_reduce_loss loss none reduction = Except.error PyErr.valueError)
    ∧ (∀ (f : QTensor → QTensor → QTensor) (pred target : QTensor),
        weighted_loss f pred target none reduction = Except.error PyErr.valueError)
    ∧ (∀ (loss w : QTensor) (ws1 : ℕ), w.dim = loss.dim →
        w.size 1 = Except.ok ws1 → (ws1 = 1 ∨ loss.size 1 = Except.ok ws1) →
        weight_reduce_loss loss (some w) reduction = Except.ok (loss.mul w)) := by
  simp only [List.mem_cons, List.not_mem_nil, or_false, not_or] at hbad
  obtain ⟨hn, hm, he, hs⟩ := hbad
  have hge : get_enum reduction = Except.error PyErr.valueError := by
    unfold get_enum
    rw [if_neg hn, if_neg hm, if_neg he, if_neg hs]
  have hrl : ∀ loss : QTensor,
      reduce_loss loss reduction = Except.error PyErr.valueError := by
    intro loss
    unfold reduce_loss
    rw [hge]
    rfl
  refine ⟨hrl, fun loss => hrl loss, fun f pred target => hrl (f pred target), ?_⟩
  intro loss w ws1 hdim hws hc
  rcases hc with h1 | h1
  · subst h1
    simp [weight_reduce_loss, pyAssert, hdim, hws, hs, hm,
      except_bind_ok, except_pure]
  · by_cases h2 : ws1 = 1
    · subst h2
      simp [weight_reduce_loss, pyAssert, hdim, hws, hs, hm,
        except_bind_ok, except_pure]
    · simp [weight_reduce_loss, pyAssert, hdim, hws, h1, h2, hs, hm,
        except_bind_ok, except_pure]

/-- C5 witness: the amended behaviour at the concrete invalid reduction
`"foo"`: `ValueError` from the no-weight entry points, and the silently
returned weighted loss when a weight is supplied. -/
theorem c5_invalid_reduction_witness :
    reduce_loss ⟨[1], [1]⟩ "foo" = Except.error PyErr.valueError
    ∧ weight_reduce_loss ⟨[1], [1]⟩ none "foo" = Except.error PyErr.valueError
    ∧ weighted_loss (fun p _ => p) ⟨[1], [1]⟩ ⟨[1], [2]⟩ none "foo"
        = Except.error PyErr.valueError
    ∧ weight_reduce_loss ⟨[1, 1], [2]⟩ (some ⟨[1, 1], [3]⟩) "foo"
        = Except.ok ((⟨[1, 1], [2]⟩ : QTensor).mul ⟨[1, 1], [3]⟩) := by
  have h := c5_invalid_reduction "foo" (by decide)
  exact ⟨h.1 _, h.2.1 _, h.2.2.1 _ _ _, h.2.2.2 _ _ 1 rfl rfl (Or.inl rfl)⟩

/-- C6: the code intends `reduction='elementwise_mean'` to behave like
`'mean'` after a deprecation warning, but `loss_util.py` never imports
`warnings`, so the branch raises `NameError` instead of succeeding: evidence
for the code bug against this claim. -/
theorem c6_elementwise_mean_nameerror (loss : QTensor) :
    reduce_loss loss "elementwise_mean" = Except.error PyErr.nameError
    ∧ weight_reduce_loss loss none "elementwise_mean"
        = Except.error PyErr.nameError :=
  ⟨rfl, rfl⟩

/-- C7: at the documented 1-D example (`loss = [1, 1, 2]`,
`weight = [1, 0, 1]`, `reduction='mean'`) the code raises `IndexError`, since
`weight.size(1)` is out of range for a rank-1 tensor — instead of returning
the documented `1.5`; the same data as rank-2 `(1, 3)` tensors yields the
intended `3 / 2`. -/
theorem c7_rank1_indexerror :
    weight_reduce_loss ⟨[3], [1, 1, 2]⟩ (some ⟨[3], [1, 0, 1]⟩) "mean"
      = Except.error PyErr.indexError
    ∧ weight_reduce_loss ⟨[1, 3], [1, 1, 2]⟩ (some ⟨[1, 3], [1, 0, 1]⟩) "mean"
      = Except.ok (QTensor.scalar (3 / 2)) := by
  refine ⟨rfl, ?_⟩
  simp [weight_reduce_loss, pyAssert, QTensor.dim, QTensor.size, QTensor.mul,
    QTensor.bshape, QTensor.enumIdx, QTensor.bcIdx, QTensor.valAt,
    QTensor.flatIdx, bdim, QTensor.sum, QTensor.scalar, except_bind_ok,
    except_bind_error, except_map_ok, except_map_error, except_pure,
    List.range_succ]
  norm_num

/-! ### Artifact (LDL) map: `get_local_weights` / `get_refined_artifact_map` -/

/-- A 4-D image tensor `(N, C, H, W)` with real values, indexed by a total
function (reads outside the shape are never used by well-formed callers). -/
@[ext]
structure T4 where
  N : ℕ
  C : ℕ
  H : ℕ
  W : ℕ
  val : ℕ → ℕ → ℕ → ℕ → ℝ

/-- Unbiased variance (`unbiased=True`, the framework default) of the family
`f` over the finite index set `s`: squared deviations from the mean divided by
`card - 1`. -/
noncomputable def varUnbiased {ι : Type} (s : Finset ι) (f : ι → ℝ) : ℝ :=
  (∑ i ∈ s, (f i - (∑ j ∈ s, f j) / s.card) ^ 2) / ((s.card : ℝ) - 1)

/-- `flow.sum(flow.abs(a - b), 1, keepdim=True)`: per-pixel absolute residual
summed over the channel dimension, keeping a singleton channel axis. -/
noncomputable def absDiffSumC (a b : T4) : T4 :=
  ⟨a.N, 1, a.H, a.W, fun n _ h w =>
    ∑ c ∈ Finset.range a.C, |a.val n c h w - b.val n c h w|⟩

/-- `flow.var(x, dim=(-1,-2,-3), keepdim=True) ** (1 / 5)`: one scalar per
sample, the unbiased variance over channel and both spatial dimensions raised
to the real power `1 / 5`. -/
noncomputable def patchLevelWeight (x : T4) : T4 :=
  ⟨x.N, 1, 1, 1, fun n _ _ _ =>
    (varUnbiased (Finset.range x.C ×ˢ Finset.range x.H ×ˢ Finset.range x.W)
      (fun p => x.val n p.1 p.2.1 p.2.2)) ^ ((1 : ℝ) / 5)⟩

/-- Index into an axis of length `size` reflection-padded by `p` on both
sides (`F.pad(..., mode="reflect")`): padded position `i` reads original
position `|i - p|` mirrored at the far edge. -/
def reflIdx (size p i : ℕ) : ℕ :=
  let j : ℤ := (i : ℤ) - (p : ℤ)
  (if j < 0 then -j
   else if (size : ℤ) ≤ j then 2 * ((size : ℤ) - 1) - j
   else j).toNat

/-- `get_local_weights(residual, ksize)`: reflect-pad by `(ksize - 1) // 2`,
unfold `ksize × ksize` sliding windows with stride 1 over the two spatial
dimensions, and take the unbiased variance over each window. -/
noncomputable def get_local_weights (residual : T4) (ksize : ℕ) : T4 :=
  let pad := (ksize - 1) / 2
  ⟨residual.N, residual.C,
    residual.H + 2 * pad + 1 - ksize, residual.W + 2 * pad + 1 - ksize,
    fun n c h w =>
      varUnbiased (Finset.range ksize ×ˢ Finset.range ksize)
        (fun p => residual.val n c (reflIdx residual.H pad (h + p.1))
          (reflIdx residual.W pad (w + p.2)))⟩

/-- Broadcast read position: a size-1 axis is always read at 0. -/
def bcAxis (d i : ℕ) : ℕ := if d = 1 then 0 else i

/-- Broadcast elementwise product of two 4-D tensors (the code multiplies the
`(N, 1, 1, 1)` patch-level weight with the `(N, 1, H, W)` pixel-level map). -/
noncomputable def bmul (a b : T4) : T4 :=
  ⟨bdim a.N b.N, bdim a.C b.C, bdim a.H b.H, bdim a.W b.W,
    fun n c h w =>
      a.val (bcAxis a.N n) (bcAxis a.C c) (bcAxis a.H h) (bcAxis a.W w) *
        b.val (bcAxis b.N n) (bcAxis b.C c) (bcAxis b.H h) (bcAxis b.W w)⟩

/-- `get_refined_artifact_map(img_gt, img_output, img_ema, ksize)`: channel-sum
absolute residuals of the EMA and optimizing models, patch-level weight
(variance to the power `1 / 5`), pixel-level local-variance weight, their
broadcast product, and finally `overall_weight[residual_sr < residual_ema] = 0`
zeroing exactly the positions where the strict comparison holds. -/
noncomputable def get_refined_artifact_map (img_gt img_output img_ema : T4)
    (ksize : ℕ) : T4 :=
  let residual_ema := absDiffSumC img_gt img_ema
  let residual_sr := absDiffSumC img_gt img_output
  let patch_level_weight := patchLevelWeight residual_sr
  let pixel_level_weight := get_local_weights residual_sr ksize
  let overall_weight := bmul patch_level_weight pixel_level_weight
  ⟨overall_weight.N, overall_weight.C, overall_weight.H, overall_weight.W,
    fun n c h w =>
      if residual_sr.val n c h w < residual_ema.val n c h w then 0
      else overall_weight.val n c h w⟩

/-- C8 (amended): when `img_output` and `img_ema` are identical,
`residual_sr = residual_ema` everywhere, so the strict `<` mask holds nowhere
and *nothing* is zeroed: the result is exactly the unmasked product of the
patch-level and pixel-level weights (not the all-zero map). -/
theorem c8_identical_unmasked (img_gt img_output : T4) (ksize : ℕ) :
    get_refined_artifact_map img_gt img_output img_output ksize
      = bmul (patchLevelWeight (absDiffSumC img_gt img_output))
          (get_local_weights (absDiffSumC img_gt img_output) ksize) := by
  unfold get_refined_artifact_map
  ext n c h w
  · rfl
  · rfl
  · rfl
  · rfl
  · simp [lt_irrefl]

/-- Concrete ground-truth image for the C8 counterexample: shape
`(1, 1, 2, 2)` with pixel values `[[0, 0], [0, 6]]`. -/
noncomputable def gt0 : T4 := ⟨1, 1, 2, 2, fun _ _ h w => if h = 1 ∧ w = 1 then 6 else 0⟩

/-- All-zero `(1, 1, 2, 2)` image, used as both `img_output` and `img_ema`. -/
noncomputable def z4 : T4 := ⟨1, 1, 2, 2, fun _ _ _ _ => 0⟩

/-- C8 counterexample: with identical `img_output = img_ema = 0` and the
ground truth `gt0`, the claim "the returned overall weight map is zero at
every position" fails: at position `(0, 0, 0, 0)` the map equals
`9 ^ (1/5) * 10 ≠ 0`, because the strict `<` mask zeroes nothing when the
residuals are equal. -/
theorem c8_counterexample :
    (get_refined_artifact_map gt0 z4 z4 3).val 0 0 0 0 ≠ 0 := by
  have hres : ∀ n c h w, (absDiffSumC gt0 z4).val n c h w
      = if h = 1 ∧ w = 1 then (6 : ℝ) else 0 := by
    intro n c h w
    show ∑ c' ∈ Finset.range 1, |gt0.val n c' h w - z4.val n c' h w| = _
    rw [Finset.sum_range_one]
    show |(if h = 1 ∧ w = 1 then (6 : ℝ) else 0) - 0| = _
    rw [sub_zero]
    by_cases hcase : h = 1 ∧ w = 1
    · rw [if_pos hcase, abs_of_nonneg]
      norm_num
    · rw [if_neg hcase, abs_zero]
  have hmask : (get_refined_artifact_map gt0 z4 z4 3).val 0 0 0 0 =
      ((varUnbiased (Finset.range 1 ×ˢ Finset.range 2 ×ˢ Finset.range 2)
          (fun p => (absDiffSumC gt0 z4).val 0 p.1 p.2.1 p.2.2)) ^ ((1 : ℝ) / 5)) *
        varUnbiased (Finset.range 3 ×ˢ Finset.range 3)
          (fun p => (absDiffSumC gt0 z4).val 0 0 (reflIdx 2 1 (0 + p.1))
            (reflIdx 2 1 (0 + p.2))) := by
    show (if (absDiffSumC gt0 z4).val 0 0 0 0 < (absDiffSumC gt0 z4).val 0 0 0 0
        then (0 : ℝ) else (bmul (patchLevelWeight (absDiffSumC gt0 z4))
          (get_local_weights (absDiffSumC gt0 z4) 3)).val 0 0 0 0) = _
    rw [if_neg (lt_irrefl _)]
    rfl
  have hvar1 : varUnbiased (Finset.range 1 ×ˢ Finset.range 2 ×ˢ Finset.range 2)
      (fun p => (absDiffSumC gt0 z4).val 0 p.1 p.2.1 p.2.2) = 9 := by
    unfold varUnbiased
    simp only [Finset.card_product, Finset.card_range, Finset.sum_product,
      Finset.sum_range_succ, Finset.sum_range_zero, hres]
    norm_num
  have hvar2 : varUnbiased (Finset.range 3 ×ˢ Finset.range 3)
      (fun p => (absDiffSumC gt0 z4).val 0 0 (reflIdx 2 1 (0 + p.1))
        (reflIdx 2 1 (0 + p.2))) = 10 := by
    have hr0 : reflIdx 2 1 0 = 1 := rfl
    have hr1 : reflIdx 2 1 1 = 0 := rfl
    have hr2 : reflIdx 2 1 2 = 1 := rfl
    unfold varUnbiased
    simp only [Finset.card_product, Finset.card_range, Finset.sum_product,
      Finset.sum_range_succ, Finset.sum_range_zero, Nat.zero_add, hr0, hr1,
      hr2, hres]
    norm_num
  rw [hmask, hvar1, hvar2]
  positivity
